import Mathlib

/-!
Concurrent traffic simulation: message queue and traffic light.

A shallow embedding of `src/TrafficLight.cpp`.

* The buffer `_queue` of `MessageQueue<T>` is a `List T` whose last element is
  the back of the container.
* `MessageQueue<T>::send` and `MessageQueue<T>::receive` run under the mutex
  `_mtx`, so each is one atomic transition of the buffer.  A `receive` whose
  wait predicate is false is the outcome `blocked`.
* Threads other than the one under study appear as explicit inputs: the sends
  that reach the queue before each `receive`, and the clock readings and the
  values of `rd()` seen by the cycle loop.
* Library behaviour is that of GNU libstdc++ on 64-bit Linux.  Readings of
  `std::chrono::system_clock` are 64-bit counts of nanoseconds; the conversion
  to `std::chrono::duration<double>` converts the count to `double` and divides
  by `1e9`.  `double` values are the rationals they denote and every operation
  rounds as IEEE 754 binary64 does.  `std::mt19937` is the generator fixed by
  the C++ standard; `std::uniform_int_distribution` uses the nearly
  divisionless method of libstdc++, whose rejection loop is run with a bound on
  the number of redraws.
-/

namespace TrafficSim

/-! ## Data model -/

/-- Modelled from the spec: the header `TrafficLight.h`, which declares the
enumeration, is not among the sources; the spec gives the phase as an
enumerated value, one of red and green. -/
inductive TrafficLightPhase
  | red
  | green
  deriving DecidableEq, Repr

/-- Modelled from the spec: the class declaration is in the missing header
`TrafficLight.h`; the spec describes an ordered buffer protected by a mutex and
a wait condition.  Only the buffer carries data. -/
structure MessageQueue (T : Type) where
  _queue : List T
  deriving DecidableEq, Repr

/-- Modelled from the spec: the class declaration is in the missing header
`TrafficLight.h`; the spec gives the state as the current phase and a channel
of phases. -/
structure TrafficLight where
  _currentPhase : TrafficLightPhase
  messageQueue : MessageQueue TrafficLightPhase
  deriving DecidableEq, Repr

/-! ## Sequence container operations used by the source -/

section Container

variable {T : Type}

/-- The member `empty()` of the container. -/
def empty (q : List T) : Bool :=
  q.isEmpty

/-- The member `back()`: the last element; `none` stands for the undefined
behaviour of calling it on an empty container. -/
def back : List T → Option T
  | [] => none
  | [x] => some x
  | _ :: y :: ys => back (y :: ys)

/-- The member `pop_back()`: removes the last element; `none` stands for the
undefined behaviour of calling it on an empty container. -/
def pop_back : List T → Option (List T)
  | [] => none
  | [_] => some []
  | x :: y :: ys => (pop_back (y :: ys)).map (fun r => x :: r)

/-- The member `clear()`. -/
def clear (_q : List T) : List T :=
  []

/-- The member `push_back(v)`: the new element becomes the back. -/
def push_back : List T → T → List T
  | [], v => [v]
  | x :: xs, v => x :: push_back xs v

end Container

/-! ## MessageQueue -/

/-- Result of a call that may wait on the condition variable. -/
inductive Outcome (T : Type)
  /-- The call returned `msg`, leaving the buffer `queue`. -/
  | returned (msg : T) (queue : MessageQueue T)
  /-- The wait predicate is false: the caller stays suspended, buffer `queue`. -/
  | blocked (queue : MessageQueue T)
  /-- An operation was applied outside its domain. -/
  | undefinedBehaviour
  deriving DecidableEq, Repr

/-- Embedding of `MessageQueue<T>::receive`: wait until `!_queue.empty()`, take
`_queue.back()`, then `pop_back()` and `clear()`. -/
def MessageQueue.receive {T : Type} (mq : MessageQueue T) : Outcome T :=
  if !(empty mq._queue) then
    match back mq._queue with
    | none => Outcome.undefinedBehaviour
    | some msg =>
      match pop_back mq._queue with
      | none => Outcome.undefinedBehaviour
      | some q1 => Outcome.returned msg ⟨clear q1⟩
  else
    Outcome.blocked mq

/-- Embedding of `MessageQueue<T>::send`: `_queue.push_back(std::move(msg))`
under the lock.  The notification has no effect on the buffer. -/
def MessageQueue.send {T : Type} (mq : MessageQueue T) (msg : T) : MessageQueue T :=
  ⟨push_back mq._queue msg⟩

/-- Successive calls of `send`, first element first, with no `receive` in
between. -/
def sendAll {T : Type} (mq : MessageQueue T) : List T → MessageQueue T
  | [] => mq
  | v :: vs => sendAll (mq.send v) vs

open TrafficLightPhase

/-! ## TrafficLight -/

/-- Embedding of the constructor `TrafficLight::TrafficLight`: phase red and a
fresh, empty message queue. -/
def TrafficLight.construct : TrafficLight :=
  ⟨red, ⟨[]⟩⟩

/-- Embedding of `TrafficLight::getCurrentPhase`. -/
def TrafficLight.getCurrentPhase (tl : TrafficLight) : TrafficLightPhase :=
  tl._currentPhase

/-- How far a call of `waitForGreen` has got. -/
inductive WaitStatus
  /-- The `return` statement was reached. -/
  | returned
  /-- The call is still inside the loop. -/
  | waiting
  /-- A container operation was applied outside its domain. -/
  | undefinedBehaviour
  deriving DecidableEq, Repr

/-- Observation of a call of `waitForGreen`: its status, the values its calls
of `receive` returned, in order, and the buffer it left. -/
structure WaitResult where
  status : WaitStatus
  consumed : List TrafficLightPhase
  messageQueue : MessageQueue TrafficLightPhase
  deriving DecidableEq, Repr

/-- Embedding of `TrafficLight::waitForGreen`: `while (true)`, call
`messageQueue->receive()` and return once the message is green.

The first argument lists, for each attempt to receive, the values that other
threads send before that attempt is served.  An attempt that finds the buffer
empty stays blocked and is served by a later entry.  When the list is used up
no further send happens and the call is still waiting. -/
def TrafficLight.waitForGreen :
    List (List TrafficLightPhase) → TrafficLight → WaitResult
  | [], tl => ⟨WaitStatus.waiting, [], tl.messageQueue⟩
  | batch :: sched, tl =>
    match (sendAll tl.messageQueue batch).receive with
    | Outcome.returned msg mq =>
      if msg = green then
        ⟨WaitStatus.returned, [msg], mq⟩
      else
        let r := TrafficLight.waitForGreen sched { tl with messageQueue := mq }
        ⟨r.status, msg :: r.consumed, r.messageQueue⟩
    | Outcome.blocked mq =>
      TrafficLight.waitForGreen sched { tl with messageQueue := mq }
    | Outcome.undefinedBehaviour =>
      ⟨WaitStatus.undefinedBehaviour, [], sendAll tl.messageQueue batch⟩

/-- Test harness: the values returned by successive calls of `receive`, one
attempt per entry, under the same reading of the entries as in
`TrafficLight.waitForGreen`. -/
def receiveAll {T : Type} : List (List T) → MessageQueue T → List T
  | [], _ => []
  | batch :: sched, mq =>
    match (sendAll mq batch).receive with
    | Outcome.returned msg mq1 => msg :: receiveAll sched mq1
    | Outcome.blocked mq1 => receiveAll sched mq1
    | Outcome.undefinedBehaviour => []

/-! ## Double precision arithmetic -/

/-- Nearest integer to `a / b`, a tie going to the even neighbour. -/
def roundHalfEven (a b : ℕ) : ℕ :=
  let f := a / b
  let r := a % b
  if 2 * r < b then f
  else if b < 2 * r then f + 1
  else if f % 2 = 0 then f else f + 1

/-- The number of halvings that bring `m` below two, at most `fuel` of them. -/
def halvings : ℕ → ℕ → ℕ
  | 0, _ => 0
  | fuel + 1, m => if m < 2 then 0 else halvings fuel (m / 2) + 1

/-- The integer part of the binary logarithm of a positive `n`. -/
def log2Floor (n : ℕ) : ℕ :=
  halvings n n

/-- The integer `e` with `2 ^ e ≤ a / b < 2 ^ (e + 1)`, for positive `a`, `b`. -/
def binaryExponent (a b : ℕ) : ℤ :=
  let e0 : ℤ := (log2Floor a : ℤ) - (log2Floor b : ℤ)
  if (b : ℚ) * (2 : ℚ) ^ e0 ≤ (a : ℚ) then e0 else e0 - 1

/-- IEEE 754 binary64 rounding, to nearest with ties to even, of an exact
value `q`: 53 significant bits, least exponent `-1022`, below which the spacing
stays `2 ^ (-1074)`.  Results of magnitude `2 ^ 1024` or more do not arise from
the 64-bit tick counts the program converts. -/
def roundDouble (q : ℚ) : ℚ :=
  if q = 0 then 0
  else
    let a := q.num.natAbs
    let b := q.den
    let e := max (binaryExponent a b) (-1022)
    let sh : ℤ := e - 52
    let n : ℕ :=
      if 0 ≤ sh then roundHalfEven a (b * 2 ^ sh.toNat)
      else roundHalfEven (a * 2 ^ (-sh).toNat) b
    (if q < 0 then -1 else 1) * (n : ℚ) * (2 : ℚ) ^ sh

/-- The value `diff.count()` of `std::chrono::duration<double> diff = curTime -
startTime`: the difference of the two nanosecond tick counts, converted to
`double` and divided by `1000000000.0`. -/
def diffCount (startTime curTime : ℤ) : ℚ :=
  roundDouble (roundDouble ((curTime - startTime : ℤ) : ℚ) / 1000000000)

/-- The value `diff.count()*1000` compared with `duration`. -/
def elapsedMs (startTime curTime : ℤ) : ℚ :=
  roundDouble (diffCount startTime curTime * 1000)

/-! ## The random number library -/

/-- State of `std::mt19937`: the 624 words `_M_x` and the position `_M_p`. -/
structure mt19937 where
  _M_x : List ℕ
  _M_p : ℕ
  deriving DecidableEq, Repr

/-- The template constant `state_size`, the number `__n` of state words. -/
def mt19937.state_size : ℕ := 624

/-- The template constant `shift_size`, the middle distance `__m`. -/
def mt19937.shift_size : ℕ := 397

/-- The words `_M_x[i]`, `_M_x[i + 1]`, ... written by `seed`, `n` of them,
`prev` being `_M_x[i - 1]`. -/
def mt19937.seedWords : ℕ → ℕ → ℕ → List ℕ
  | 0, _, _ => []
  | n + 1, i, prev =>
    let x := ((prev ^^^ (prev >>> 30)) * 1812433253 + i % mt19937.state_size) % 2 ^ 32
    x :: mt19937.seedWords n (i + 1) x

/-- The constructor `std::mt19937 eng(sd)`, that is `seed(sd)`. -/
def mt19937.seed (sd : ℕ) : mt19937 :=
  ⟨(sd % 2 ^ 32) :: mt19937.seedWords (mt19937.state_size - 1) 1 (sd % 2 ^ 32),
    mt19937.state_size⟩

/-- One step of the recurrence of `_M_gen_rand`: the new word from `_M_x[k]`,
`_M_x[k + 1]` and the word `397` places on. -/
def mt19937.twist (xk xk1 xm : ℕ) : ℕ :=
  let y := (xk &&& 0xffffffff80000000) ||| (xk1 &&& 0x7fffffff)
  xm ^^^ (y >>> 1) ^^^ (if y &&& 1 ≠ 0 then 0x9908b0df else 0)

/-- A `for` loop of `_M_gen_rand`: `c` passes from index `k`, updating in
place; `off k` is the index of the third word read. -/
def mt19937.genLoop (off : ℕ → ℕ) : ℕ → ℕ → List ℕ → List ℕ
  | 0, _, x => x
  | c + 1, k, x =>
    mt19937.genLoop off c (k + 1)
      (x.set k (mt19937.twist (x.getD k 0) (x.getD (k + 1) 0) (x.getD (off k) 0)))

/-- The last assignment of `_M_gen_rand`: the word `__n - 1` from itself, word
`0` and word `__m - 1`. -/
def mt19937.genLast (x : List ℕ) : List ℕ :=
  x.set (mt19937.state_size - 1)
    (mt19937.twist (x.getD (mt19937.state_size - 1) 0) (x.getD 0 0)
      (x.getD (mt19937.shift_size - 1) 0))

/-- The words after `_M_gen_rand`: the loop over `0 ≤ k < __n - __m` reading
word `k + __m`, the loop over `__n - __m ≤ k < __n - 1` reading word
`k + __m - __n`, then the last assignment. -/
def mt19937.genWords (x : List ℕ) : List ℕ :=
  mt19937.genLast
    (mt19937.genLoop (fun k => k + mt19937.shift_size - mt19937.state_size)
      (mt19937.state_size - 1 - (mt19937.state_size - mt19937.shift_size))
      (mt19937.state_size - mt19937.shift_size)
      (mt19937.genLoop (fun k => k + mt19937.shift_size)
        (mt19937.state_size - mt19937.shift_size) 0 x))

/-- The member `_M_gen_rand`: regenerates all 624 words. -/
def mt19937._M_gen_rand (g : mt19937) : mt19937 :=
  ⟨mt19937.genWords g._M_x, 0⟩

/-- The call `eng()`: the tempered next word and the advanced state. -/
def mt19937.generate (g : mt19937) : ℕ × mt19937 :=
  let g1 := if g._M_p ≥ mt19937.state_size then g._M_gen_rand else g
  let z0 := g1._M_x.getD g1._M_p 0
  let z1 := z0 ^^^ ((z0 >>> 11) &&& 0xffffffff)
  let z2 := z1 ^^^ ((z1 <<< 7) &&& 0x9d2c5680)
  let z3 := z2 ^^^ ((z2 <<< 15) &&& 0xefc60000)
  let z4 := z3 ^^^ (z3 >>> 18)
  (z4, ⟨g1._M_x, g1._M_p + 1⟩)

/-- The threshold `-__range % __range` of `_S_nd`, in 32-bit unsigned
arithmetic. -/
def uniform_int_distribution.threshold (range : ℕ) : ℕ :=
  ((2 ^ 32 - range % 2 ^ 32) % 2 ^ 32) % range

/-- The 64-bit product `_Wp(__g()) * _Wp(__range)` of `_S_nd`. -/
def uniform_int_distribution.product (range u : ℕ) : ℕ :=
  (u * range) % 2 ^ 64

/-- The loop `while (__low < __threshold)` of `_S_nd`: it draws again as long
as the low half of the product is below the threshold.  The first argument
bounds the number of further calls of the generator; `none` says that the loop
has not ended within that bound. -/
def uniform_int_distribution._S_nd_loop (range threshold : ℕ) :
    ℕ → ℕ → mt19937 → Option ℕ
  | 0, product, _ =>
    if product % 2 ^ 32 < threshold then none else some product
  | fuel + 1, product, g =>
    if product % 2 ^ 32 < threshold then
      uniform_int_distribution._S_nd_loop range threshold fuel
        (uniform_int_distribution.product range g.generate.1) g.generate.2
    else some product

/-- The helper `_S_nd<uint64_t>` of `std::uniform_int_distribution` (nearly
divisionless method of Lemire) for a 32-bit generator: a value below `range`. -/
def uniform_int_distribution._S_nd (range fuel : ℕ) (g : mt19937) : Option ℕ :=
  let product := uniform_int_distribution.product range g.generate.1
  let low := product % 2 ^ 32
  if low < range then
    (uniform_int_distribution._S_nd_loop range (uniform_int_distribution.threshold range)
      fuel product g.generate.2).map (fun p => (p >>> 32) % 2 ^ 32)
  else
    some ((product >>> 32) % 2 ^ 32)

/-- Conversion of a 64-bit unsigned value to `int`. -/
def toInt32 (z : ℤ) : ℤ :=
  if z % 2 ^ 32 < 2 ^ 31 then z % 2 ^ 32 else z % 2 ^ 32 - 2 ^ 32

/-- The call `distr(eng)` for `std::uniform_int_distribution<> distr(a, b)` and
a `std::mt19937`, as in GNU libstdc++: the generator's range `2 ^ 32 - 1`
exceeds `b - a`, the value is `_S_nd` of `b - a + 1` plus `a`; with equal
ranges it is the raw output plus `a`.  With an `int` result `b - a` cannot
exceed the generator's range. -/
def uniform_int_distribution (a b : ℤ) (fuel : ℕ) (g : mt19937) : Option ℤ :=
  let urange : ℕ := ((b - a) % 2 ^ 64).toNat
  if urange < 0xffffffff then
    (uniform_int_distribution._S_nd (urange + 1) fuel g).map
      (fun (ret : ℕ) => toInt32 (((ret : ℤ) + a) % 2 ^ 64))
  else if 0xffffffff < urange then
    none
  else
    some (toInt32 (((g.generate.1 : ℤ) + a) % 2 ^ 64))

/-! ## The cycle loop -/

/-- Local variables of `TrafficLight::cycleThroughPhases`. -/
structure CycleLocals where
  /-- The local `double duration`, in milliseconds. -/
  duration : ℚ
  /-- The local `startTime`: a reading of the system clock, in nanosecond
  ticks. -/
  startTime : ℤ
  deriving DecidableEq

/-- What one pass through the loop body reads from its environment. -/
structure CycleInput where
  /-- The reading `curTime` of the system clock at the top of the body. -/
  curTime : ℤ
  /-- The reading of the system clock assigned to `startTime` after a toggle. -/
  resetTime : ℤ
  /-- The value of `rd()` that seeds the generator. -/
  rd : ℕ
  deriving DecidableEq

/-- Where a pass through the loop body stands. -/
inductive CycleStep
  /-- The pass reached the end of the loop body with state `s`. -/
  | completed (s : TrafficLight × CycleLocals)
  /-- The pass is still inside `distr(eng)`: the phase is toggled and
  `startTime` reset, `duration` not yet assigned, nothing sent. -/
  | drawing (s : TrafficLight × CycleLocals)
  deriving DecidableEq

/-- The state held at a `CycleStep`. -/
def CycleStep.state : CycleStep → TrafficLight × CycleLocals
  | CycleStep.completed s => s
  | CycleStep.drawing s => s

/-- Embedding of the body of the `while (true)` loop of
`TrafficLight::cycleThroughPhases` (the final sleep has no effect on the
state).  `fuel` bounds the redraws inside `distr(eng)`. -/
def TrafficLight.cycleIteration (fuel : ℕ) (inp : CycleInput)
    (s : TrafficLight × CycleLocals) : CycleStep :=
  if elapsedMs s.2.startTime inp.curTime ≥ s.2.duration then
    let phase : TrafficLightPhase :=
      if s.1._currentPhase = green then red
      else if s.1._currentPhase = red then green
      else s.1._currentPhase
    let startTime : ℤ := inp.resetTime
    match uniform_int_distribution 4000 6000 fuel (mt19937.seed inp.rd) with
    | none => CycleStep.drawing (⟨phase, s.1.messageQueue⟩, ⟨s.2.duration, startTime⟩)
    | some d =>
      let duration : ℚ := (d : ℚ)
      CycleStep.completed (⟨phase, s.1.messageQueue.send phase⟩, ⟨duration, startTime⟩)
  else
    CycleStep.completed s

/-- Entry of `TrafficLight::cycleThroughPhases`: `duration = 0` and `startTime`
is the clock reading `t0`. -/
def TrafficLight.cycleEntry (t0 : ℤ) (tl : TrafficLight) : TrafficLight × CycleLocals :=
  (tl, ⟨0, t0⟩)

/-- Successive passes through the loop body, one per input; a pass that stays
inside `distr(eng)` ends the run there. -/
def TrafficLight.cycleLoop (fuel : ℕ) :
    List CycleInput → TrafficLight × CycleLocals → CycleStep
  | [], s => CycleStep.completed s
  | inp :: inputs, s =>
    match TrafficLight.cycleIteration fuel inp s with
    | CycleStep.completed s1 => TrafficLight.cycleLoop fuel inputs s1
    | CycleStep.drawing s1 => CycleStep.drawing s1

/-- Embedding of `TrafficLight::cycleThroughPhases` run for as many passes
through the loop body as there are inputs. -/
def TrafficLight.cycleThroughPhases (fuel : ℕ) (t0 : ℤ) (inputs : List CycleInput)
    (tl : TrafficLight) : CycleStep :=
  TrafficLight.cycleLoop fuel inputs (TrafficLight.cycleEntry t0 tl)

/-- The other phase. -/
def TrafficLightPhase.opposite : TrafficLightPhase → TrafficLightPhase
  | red => green
  | green => red

/-- The published sequence green, red, green, ... of length `n`. -/
def alternation (n : ℕ) : List TrafficLightPhase :=
  (List.range n).map (fun i => if i % 2 = 0 then green else red)

/-- All words of the generator state are 32-bit values. -/
def mt19937.WordsBounded (g : mt19937) : Prop :=
  ∀ w ∈ g._M_x, w < 2 ^ 32

/-- Invariant of the published sequence of the cycle loop started on a fresh
traffic light: after `n` sends the buffer is the alternation of length `n`. -/
def CycleInv (s : TrafficLight × CycleLocals) : Prop :=
  ∃ n, s.1.messageQueue._queue = alternation n ∧
    s.1._currentPhase = (if n % 2 = 0 then red else green)


/-! ## Basic facts about the container operations -/

section ContainerLemmas

variable {T : Type}

theorem push_back_eq_append (q : List T) (v : T) : push_back q v = q ++ [v] := by
  induction q with
  | nil => rfl
  | cons x xs ih => simp [push_back, ih]

theorem back_append_singleton (q : List T) (v : T) : back (q ++ [v]) = some v := by
  induction q with
  | nil => rfl
  | cons x xs ih =>
    cases xs with
    | nil => rfl
    | cons y ys => simpa [back] using ih

theorem pop_back_append_singleton (q : List T) (v : T) :
    pop_back (q ++ [v]) = some q := by
  induction q with
  | nil => rfl
  | cons x xs ih =>
    cases xs with
    | nil => rfl
    | cons y ys =>
      have h : pop_back (y :: (ys ++ [v])) = some (y :: ys) := by simpa using ih
      simp [pop_back, h]

theorem sendAll_queue (mq : MessageQueue T) (s : List T) :
    (sendAll mq s)._queue = mq._queue ++ s := by
  induction s generalizing mq with
  | nil => simp [sendAll]
  | cons v vs ih => simp [sendAll, ih, MessageQueue.send, push_back_eq_append]

theorem receive_append_singleton (q : List T) (v : T) :
    MessageQueue.receive ⟨q ++ [v]⟩ = Outcome.returned v ⟨[]⟩ := by
  simp [MessageQueue.receive, empty, back_append_singleton, pop_back_append_singleton, clear]

end ContainerLemmas

/-! ## Facts shared by the claims about `receive` and `waitForGreen` -/

section QueueLemmas

variable {T : Type}

theorem messageQueue_eta (mq : MessageQueue T) : mq = ⟨mq._queue⟩ := by
  cases mq; rfl

theorem receive_nil : MessageQueue.receive (⟨[]⟩ : MessageQueue T) = Outcome.blocked ⟨[]⟩ := by
  simp [MessageQueue.receive, empty]

theorem receive_sendAll_of_getLast? (mq : MessageQueue T) (s : List T) (v : T)
    (h : s.getLast? = some v) : (sendAll mq s).receive = Outcome.returned v ⟨[]⟩ := by
  obtain ⟨l, rfl⟩ : ∃ l, s = l ++ [v] := by
    rcases List.eq_nil_or_concat s with h0 | ⟨l, w, h0⟩
    · subst h0; simp at h
    · subst h0
      simp at h
      exact ⟨l, by simp [h]⟩
  rw [messageQueue_eta (sendAll mq (l ++ [v])), sendAll_queue, ← List.append_assoc,
    receive_append_singleton]

/-- The three ways a `receive` after a batch of sends can go. -/
theorem receive_sendAll_cases (mq : MessageQueue T) (s : List T) :
    ((mq._queue ++ s = []) ∧ (sendAll mq s).receive = Outcome.blocked ⟨[]⟩) ∨
      ∃ v, (mq._queue ++ s).getLast? = some v ∧
        (sendAll mq s).receive = Outcome.returned v ⟨[]⟩ := by
  rw [messageQueue_eta (sendAll mq s), sendAll_queue]
  rcases List.eq_nil_or_concat (mq._queue ++ s) with h | ⟨l, v, h⟩
  · left
    rw [h]
    exact ⟨rfl, receive_nil⟩
  · right
    rw [h]
    refine ⟨v, by simp, ?_⟩
    simp only [List.concat_eq_append]
    exact receive_append_singleton l v

theorem mem_receiveAll (sched : List (List T)) (mq : MessageQueue T) (x : T)
    (hx : x ∈ receiveAll sched mq) : x ∈ mq._queue ∨ ∃ b ∈ sched, x ∈ b := by
  induction sched generalizing mq with
  | nil => simp [receiveAll] at hx
  | cons batch sched ih =>
    rcases receive_sendAll_cases mq batch with ⟨_, hr⟩ | ⟨v, hv, hr⟩
    · simp only [receiveAll, hr] at hx
      rcases ih _ hx with h | ⟨b, hb, hxb⟩
      · simp at h
      · exact Or.inr ⟨b, List.mem_cons_of_mem _ hb, hxb⟩
    · simp only [receiveAll, hr, List.mem_cons] at hx
      rcases hx with rfl | hx
      · have hmem : x ∈ mq._queue ++ batch := List.mem_of_getLast?_eq_some hv
        rcases List.mem_append.mp hmem with h | h
        · exact Or.inl h
        · exact Or.inr ⟨batch, List.mem_cons_self _ _, h⟩
      · rcases ih _ hx with h | ⟨b, hb, hxb⟩
        · simp at h
        · exact Or.inr ⟨b, List.mem_cons_of_mem _ hb, hxb⟩

end QueueLemmas

theorem phase_ne_green {x : TrafficLightPhase} (h : ¬ x = green) : x = red := by
  cases x
  · rfl
  · exact absurd rfl h

/-- Shape of every run of `waitForGreen`, against the values that successive
calls of `receive` deliver under the same schedule. -/
theorem waitForGreen_shape (sched : List (List TrafficLightPhase)) (tl : TrafficLight) :
    ∃ reds : List TrafficLightPhase, (∀ x ∈ reds, x = red) ∧
      (((TrafficLight.waitForGreen sched tl).status = WaitStatus.returned ∧
          (TrafficLight.waitForGreen sched tl).consumed = reds ++ [green] ∧
          ∃ rest, receiveAll sched tl.messageQueue = reds ++ green :: rest) ∨
        ((TrafficLight.waitForGreen sched tl).status = WaitStatus.waiting ∧
          (TrafficLight.waitForGreen sched tl).consumed = reds ∧
          receiveAll sched tl.messageQueue = reds)) := by
  induction sched generalizing tl with
  | nil => exact ⟨[], by simp, Or.inr ⟨rfl, rfl, rfl⟩⟩
  | cons batch sched ih =>
    rcases receive_sendAll_cases tl.messageQueue batch with ⟨_, hr⟩ | ⟨v, _, hr⟩
    · simp only [TrafficLight.waitForGreen, receiveAll, hr]
      exact ih { tl with messageQueue := ⟨[]⟩ }
    · simp only [TrafficLight.waitForGreen, receiveAll, hr]
      by_cases hv : v = green
      · subst hv
        exact ⟨[], by simp, Or.inl ⟨by simp, by simp, _, rfl⟩⟩
      · obtain ⟨reds, hreds, h⟩ := ih { tl with messageQueue := ⟨[]⟩ }
        have hvr : v = red := phase_ne_green hv
        refine ⟨v :: reds, ?_, ?_⟩
        · intro x hx
          rcases List.mem_cons.mp hx with rfl | hx
          · exact hvr
          · exact hreds x hx
        · simp only [if_neg hv]
          rcases h with ⟨h1, h2, rest, h3⟩ | ⟨h1, h2, h3⟩
          · exact Or.inl ⟨h1, by simp [h2], rest, by simp [h3]⟩
          · exact Or.inr ⟨h1, by simp [h2], by simp [h3]⟩

theorem receiveAll_singletons (ds : List TrafficLightPhase) :
    receiveAll (ds.map (fun v => [v])) (⟨[]⟩ : MessageQueue TrafficLightPhase) = ds := by
  induction ds with
  | nil => rfl
  | cons d ds ih =>
    have hr := receive_sendAll_of_getLast? (⟨[]⟩ : MessageQueue TrafficLightPhase) [d] d rfl
    simp only [List.map_cons, receiveAll, hr, ih]

/-! ## Claims about the message queue -/

/-- C1. Drain-to-latest: for every initial buffer and every non-empty sequence
of values sent with no receive in between, the next `receive` returns the last
value sent and leaves the buffer empty. -/
theorem receive_after_sends_returns_latest {T : Type} (mq : MessageQueue T) (s : List T)
    (hs : s ≠ []) :
    (sendAll mq s).receive = Outcome.returned (s.getLast hs) ⟨[]⟩ := by
  have hq : sendAll mq s = ⟨mq._queue ++ s⟩ := by
    cases h : sendAll mq s with
    | mk q =>
      have := sendAll_queue mq s
      rw [h] at this
      simp at this
      simp [this]
  rw [hq]
  have hsplit : s = s.dropLast ++ [s.getLast hs] := (List.dropLast_append_getLast hs).symm
  have : mq._queue ++ s = (mq._queue ++ s.dropLast) ++ [s.getLast hs] := by
    rw [List.append_assoc, ← hsplit]
  rw [this, receive_append_singleton]

/-- Witness for C1: send red, then green; `receive` returns green. -/
theorem receive_after_sends_returns_latest_witness :
    [red, green] ≠ [] ∧
      (sendAll (⟨[red, red]⟩ : MessageQueue TrafficLightPhase) [red, green]).receive
        = Outcome.returned green ⟨[]⟩ :=
  ⟨by decide, receive_after_sends_returns_latest ⟨[red, red]⟩ [red, green] (by decide)⟩

/-- C6. `receive` yields a value only when the buffer is non-empty: on an empty
buffer it stays blocked with the buffer unchanged, on a non-empty buffer it
returns, and it never applies `back` or `pop_back` outside their domain. -/
theorem receive_blocks_iff_empty {T : Type} (mq : MessageQueue T) :
    (mq.receive = Outcome.blocked mq ↔ mq._queue = []) ∧
      ((∃ msg mq1, mq.receive = Outcome.returned msg mq1) ↔ mq._queue ≠ []) ∧
      mq.receive ≠ Outcome.undefinedBehaviour ∧
      (mq._queue = [] ↔ ∀ msg mq1, mq.receive ≠ Outcome.returned msg mq1) := by
  obtain ⟨q⟩ := mq
  rcases List.eq_nil_or_concat q with h | ⟨l, v, h⟩
  · subst h
    simp [MessageQueue.receive, empty]
  · subst h
    simp only [List.concat_eq_append]
    rw [receive_append_singleton]
    simp

/-- C7. `send v` only appends: the buffer afterwards is the old buffer followed
by `v`, one element longer, with the old buffer as its initial segment; `send`
is a total function, so it has no failing outcome. -/
theorem send_appends {T : Type} (mq : MessageQueue T) (v : T) :
    (mq.send v)._queue = mq._queue ++ [v] ∧
      (mq.send v)._queue.length = mq._queue.length + 1 ∧
      (mq.send v)._queue.take mq._queue.length = mq._queue ∧
      (∀ i, i < mq._queue.length → (mq.send v)._queue[i]? = mq._queue[i]?) ∧
      (mq.send v)._queue[mq._queue.length]? = some v := by
  have h : (mq.send v)._queue = mq._queue ++ [v] := by
    simp [MessageQueue.send, push_back_eq_append]
  rw [h]
  refine ⟨rfl, by simp, by simp, ?_, by simp⟩
  intro i hi
  simp [List.getElem?_append_left hi]

/-- Witness for C7: sending green to a buffer holding red, red. -/
theorem send_appends_witness :
    ((⟨[red, red]⟩ : MessageQueue TrafficLightPhase).send green)._queue = [red, red, green] ∧
      ((⟨[red, red]⟩ : MessageQueue TrafficLightPhase).send green)._queue[1]? = some red :=
  ⟨(send_appends ⟨[red, red]⟩ green).1,
    (send_appends ⟨[red, red]⟩ green).2.2.2.1 1 (by decide)⟩

/-! ## Claims about `waitForGreen` -/

/-- C2. `waitForGreen` returns exactly when the value it has just received is
green.  Under every schedule of sends, the values it consumes are the values
delivered by successive calls of `receive` up to and including the first green;
every value consumed before that is red; when it has returned the last value
consumed is green; when no green is delivered it has not returned and has
consumed only reds.  Every sequence of phases is the sequence delivered under
some schedule. -/
theorem waitForGreen_returns_iff_green :
    (∀ (sched : List (List TrafficLightPhase)) (tl : TrafficLight),
      ∃ reds : List TrafficLightPhase, (∀ x ∈ reds, x = red) ∧
        (((TrafficLight.waitForGreen sched tl).status = WaitStatus.returned ∧
            (TrafficLight.waitForGreen sched tl).consumed = reds ++ [green] ∧
            ∃ rest, receiveAll sched tl.messageQueue = reds ++ green :: rest) ∨
          ((TrafficLight.waitForGreen sched tl).status = WaitStatus.waiting ∧
            (TrafficLight.waitForGreen sched tl).consumed = reds ∧
            receiveAll sched tl.messageQueue = reds))) ∧
      (∀ (sched : List (List TrafficLightPhase)) (tl : TrafficLight),
        ((TrafficLight.waitForGreen sched tl).status = WaitStatus.returned ↔
          (TrafficLight.waitForGreen sched tl).consumed.getLast? = some green) ∧
        ((TrafficLight.waitForGreen sched tl).status = WaitStatus.returned ↔
          green ∈ receiveAll sched tl.messageQueue)) ∧
      (∀ ds : List TrafficLightPhase,
        ∃ sched, receiveAll sched TrafficLight.construct.messageQueue = ds) := by
  refine ⟨waitForGreen_shape, ?_, ?_⟩
  · intro sched tl
    obtain ⟨reds, hreds, h⟩ := waitForGreen_shape sched tl
    have hng : green ∉ reds := fun hmem => by
      have := hreds green hmem
      cases this
    rcases h with ⟨h1, h2, rest, h3⟩ | ⟨h1, h2, h3⟩
    · rw [h1, h2, h3]
      simp
    · rw [h1, h2, h3]
      refine ⟨⟨fun h => (by cases h), fun h => ?_⟩, ⟨fun h => (by cases h), fun h => absurd h hng⟩⟩
      exact absurd (List.mem_of_getLast?_eq_some h) hng
  · intro ds
    exact ⟨ds.map (fun v => [v]), receiveAll_singletons ds⟩

/-- C10. A buffered green can be lost.  After the sends green, red with no
receive in between, the next `receive` returns red and empties the buffer; a
`waitForGreen` performing that receive goes on waiting on the empty buffer, and
unless green is sent again no later `receive` delivers green and `waitForGreen`
does not return.  Conversely, whenever the last value sent before a `receive`
is green, a `waitForGreen` performing that receive returns. -/
theorem buffered_green_can_be_lost :
    (green ∈ [green, red] ∧
      ∀ mq : MessageQueue TrafficLightPhase,
        (sendAll mq [green, red]).receive = Outcome.returned red ⟨[]⟩) ∧
      (∀ (tl : TrafficLight) (sched : List (List TrafficLightPhase)),
        TrafficLight.waitForGreen ([green, red] :: sched) tl =
          ⟨(TrafficLight.waitForGreen sched { tl with messageQueue := ⟨[]⟩ }).status,
            red :: (TrafficLight.waitForGreen sched { tl with messageQueue := ⟨[]⟩ }).consumed,
            (TrafficLight.waitForGreen sched { tl with messageQueue := ⟨[]⟩ }).messageQueue⟩) ∧
      (∀ (tl : TrafficLight) (sched : List (List TrafficLightPhase)),
        (∀ b ∈ sched, green ∉ b) →
          green ∉ receiveAll ([green, red] :: sched) tl.messageQueue ∧
          (TrafficLight.waitForGreen ([green, red] :: sched) tl).status = WaitStatus.waiting) ∧
      (∀ (tl : TrafficLight) (s : List TrafficLightPhase) (sched : List (List TrafficLightPhase)),
        s.getLast? = some green →
          (sendAll tl.messageQueue s).receive = Outcome.returned green ⟨[]⟩ ∧
          (TrafficLight.waitForGreen (s :: sched) tl).status = WaitStatus.returned ∧
          (TrafficLight.waitForGreen (s :: sched) tl).consumed = [green]) := by
  have hrecv : ∀ mq : MessageQueue TrafficLightPhase,
      (sendAll mq [green, red]).receive = Outcome.returned red ⟨[]⟩ :=
    fun mq => receive_sendAll_of_getLast? mq [green, red] red rfl
  refine ⟨⟨by simp, hrecv⟩, ?_, ?_, ?_⟩
  · intro tl sched
    simp [TrafficLight.waitForGreen, hrecv]
  · intro tl sched hsched
    have hnot : green ∉ receiveAll ([green, red] :: sched) tl.messageQueue := by
      simp only [receiveAll, hrecv, List.mem_cons, not_or]
      refine ⟨by decide, fun hmem => ?_⟩
      rcases mem_receiveAll sched ⟨[]⟩ green hmem with h | ⟨b, hb, hgb⟩
      · simp at h
      · exact hsched b hb hgb
    refine ⟨hnot, ?_⟩
    obtain ⟨reds, _, h⟩ := waitForGreen_shape ([green, red] :: sched) tl
    rcases h with ⟨_, _, rest, h3⟩ | ⟨h1, _, _⟩
    · exact absurd (by rw [h3]; simp) hnot
    · exact h1
  · intro tl s sched hs
    have hr := receive_sendAll_of_getLast? tl.messageQueue s green hs
    exact ⟨hr, by simp [TrafficLight.waitForGreen, hr], by simp [TrafficLight.waitForGreen, hr]⟩

/-- Witness for C10: the sends red, green bring `waitForGreen` back, and after
green, red followed by a red it is still waiting. -/
theorem buffered_green_can_be_lost_witness :
    (TrafficLight.waitForGreen [[red, green]] TrafficLight.construct).status
        = WaitStatus.returned ∧
      (TrafficLight.waitForGreen [[green, red], [red]] TrafficLight.construct).status
        = WaitStatus.waiting :=
  ⟨(buffered_green_can_be_lost.2.2.2 TrafficLight.construct [red, green] [] rfl).2.1,
    (buffered_green_can_be_lost.2.2.1 TrafficLight.construct [[red]] (by decide)).2⟩

/-! ## Facts about the random number library -/

theorem getD_lt_of_bounded (x : List ℕ) (k : ℕ) (h : ∀ w ∈ x, w < 2 ^ 32) :
    x.getD k 0 < 2 ^ 32 := by
  rw [List.getD_eq_getElem?_getD]
  cases hk : x[k]? with
  | none => simp
  | some w =>
    simp only [Option.getD_some]
    exact h w (List.getElem?_mem hk)

theorem set_bounded (x : List ℕ) (k v : ℕ) (h : ∀ w ∈ x, w < 2 ^ 32) (hv : v < 2 ^ 32) :
    ∀ w ∈ x.set k v, w < 2 ^ 32 := by
  intro w hw
  rcases List.mem_or_eq_of_mem_set hw with hm | rfl
  · exact h w hm
  · exact hv

theorem shiftRight_le_self (m n : ℕ) : m >>> n ≤ m := by
  rw [Nat.shiftRight_eq_div_pow]
  exact Nat.div_le_self _ _

theorem twist_lt (xk xk1 xm : ℕ) (hk : xk < 2 ^ 32) (hm : xm < 2 ^ 32) :
    mt19937.twist xk xk1 xm < 2 ^ 32 := by
  unfold mt19937.twist
  have h1 : xk &&& 0xffffffff80000000 < 2 ^ 32 := lt_of_le_of_lt Nat.and_le_left hk
  have h2 : xk1 &&& 0x7fffffff < 2 ^ 32 := Nat.and_lt_two_pow _ (by norm_num)
  have hy : (xk &&& 0xffffffff80000000) ||| (xk1 &&& 0x7fffffff) < 2 ^ 32 :=
    Nat.or_lt_two_pow h1 h2
  have hy1 : ((xk &&& 0xffffffff80000000) ||| (xk1 &&& 0x7fffffff)) >>> 1 < 2 ^ 32 :=
    lt_of_le_of_lt (shiftRight_le_self _ _) hy
  refine Nat.xor_lt_two_pow (Nat.xor_lt_two_pow hm hy1) ?_
  split <;> norm_num

theorem genLoop_bounded (off : ℕ → ℕ) (c k : ℕ) (x : List ℕ) (h : ∀ w ∈ x, w < 2 ^ 32) :
    ∀ w ∈ mt19937.genLoop off c k x, w < 2 ^ 32 := by
  induction c generalizing k x with
  | zero => exact h
  | succ c ih =>
    exact ih (k + 1) _
      (set_bounded x k _ h (twist_lt _ _ _ (getD_lt_of_bounded x k h)
        (getD_lt_of_bounded x (off k) h)))

theorem genWords_bounded (x : List ℕ) (h : ∀ w ∈ x, w < 2 ^ 32) :
    ∀ w ∈ mt19937.genWords x, w < 2 ^ 32 := by
  have h1 := genLoop_bounded (fun k => k + mt19937.shift_size)
    (mt19937.state_size - mt19937.shift_size) 0 x h
  have h2 := genLoop_bounded (fun k => k + mt19937.shift_size - mt19937.state_size)
    (mt19937.state_size - 1 - (mt19937.state_size - mt19937.shift_size))
    (mt19937.state_size - mt19937.shift_size) _ h1
  unfold mt19937.genWords mt19937.genLast
  exact set_bounded _ _ _ h2 (twist_lt _ _ _ (getD_lt_of_bounded _ _ h2)
    (getD_lt_of_bounded _ _ h2))

theorem gen_rand_bounded (g : mt19937) (h : g.WordsBounded) : g._M_gen_rand.WordsBounded := by
  intro w hw
  dsimp only [mt19937._M_gen_rand] at hw
  exact genWords_bounded g._M_x h w hw

theorem generate_bounded (g : mt19937) (h : g.WordsBounded) :
    g.generate.1 < 2 ^ 32 ∧ g.generate.2.WordsBounded := by
  have hg1 : (if g._M_p ≥ mt19937.state_size then g._M_gen_rand else g).WordsBounded := by
    split
    · exact gen_rand_bounded g h
    · exact h
  constructor
  · simp only [mt19937.generate]
    have h0 := getD_lt_of_bounded _ (if g._M_p ≥ mt19937.state_size then g._M_gen_rand else g)._M_p hg1
    generalize (if g._M_p ≥ mt19937.state_size then g._M_gen_rand else g)._M_x.getD
      (if g._M_p ≥ mt19937.state_size then g._M_gen_rand else g)._M_p 0 = z0 at h0 ⊢
    have h1 : z0 ^^^ ((z0 >>> 11) &&& 0xffffffff) < 2 ^ 32 :=
      Nat.xor_lt_two_pow h0 (Nat.and_lt_two_pow _ (by norm_num))
    generalize z0 ^^^ ((z0 >>> 11) &&& 0xffffffff) = z1 at h1 ⊢
    have h2 : z1 ^^^ ((z1 <<< 7) &&& 0x9d2c5680) < 2 ^ 32 :=
      Nat.xor_lt_two_pow h1 (Nat.and_lt_two_pow _ (by norm_num))
    generalize z1 ^^^ ((z1 <<< 7) &&& 0x9d2c5680) = z2 at h2 ⊢
    have h3 : z2 ^^^ ((z2 <<< 15) &&& 0xefc60000) < 2 ^ 32 :=
      Nat.xor_lt_two_pow h2 (Nat.and_lt_two_pow _ (by norm_num))
    generalize z2 ^^^ ((z2 <<< 15) &&& 0xefc60000) = z3 at h3 ⊢
    exact Nat.xor_lt_two_pow h3 (lt_of_le_of_lt (shiftRight_le_self _ _) h3)
  · exact hg1

theorem seedWords_bounded (n i prev : ℕ) : ∀ w ∈ mt19937.seedWords n i prev, w < 2 ^ 32 := by
  induction n generalizing i prev with
  | zero => simp [mt19937.seedWords]
  | succ n ih =>
    intro w hw
    simp only [mt19937.seedWords, List.mem_cons] at hw
    rcases hw with rfl | hw
    · exact Nat.mod_lt _ (by norm_num)
    · exact ih _ _ w hw

theorem seed_bounded (sd : ℕ) : (mt19937.seed sd).WordsBounded := by
  intro w hw
  simp only [mt19937.seed, List.mem_cons] at hw
  rcases hw with rfl | hw
  · exact Nat.mod_lt _ (by norm_num)
  · exact seedWords_bounded _ _ _ w hw

/-- The high half of the product of a 32-bit output with `range` is below
`range`. -/
theorem product_high_lt (range u : ℕ) (hu : u < 2 ^ 32) (hr : 0 < range) :
    (uniform_int_distribution.product range u >>> 32) % 2 ^ 32 < range := by
  unfold uniform_int_distribution.product
  rw [Nat.shiftRight_eq_div_pow]
  have h1 : u * range % 2 ^ 64 ≤ u * range := Nat.mod_le _ _
  have h2 : u * range < 2 ^ 32 * range := Nat.mul_lt_mul_of_pos_right hu hr
  have h3 : u * range % 2 ^ 64 / 2 ^ 32 < range := by
    rw [Nat.div_lt_iff_lt_mul (by norm_num)]
    calc u * range % 2 ^ 64 ≤ u * range := h1
      _ < 2 ^ 32 * range := h2
      _ = range * 2 ^ 32 := Nat.mul_comm _ _
  exact lt_of_le_of_lt (Nat.mod_le _ _) h3

theorem S_nd_loop_lt (range threshold fuel product : ℕ) (g : mt19937) (p : ℕ)
    (hr : 0 < range) (hg : g.WordsBounded) (hp : (product >>> 32) % 2 ^ 32 < range)
    (h : uniform_int_distribution._S_nd_loop range threshold fuel product g = some p) :
    (p >>> 32) % 2 ^ 32 < range := by
  induction fuel generalizing product g with
  | zero =>
    simp only [uniform_int_distribution._S_nd_loop] at h
    split at h
    · cases h
    · cases h; exact hp
  | succ fuel ih =>
    simp only [uniform_int_distribution._S_nd_loop] at h
    split at h
    · exact ih _ _ (generate_bounded g hg).2
        (product_high_lt range _ (generate_bounded g hg).1 hr) h
    · cases h; exact hp

theorem S_nd_lt (range fuel : ℕ) (g : mt19937) (ret : ℕ) (hr : 0 < range)
    (hg : g.WordsBounded) (h : uniform_int_distribution._S_nd range fuel g = some ret) :
    ret < range := by
  have hp := product_high_lt range _ (generate_bounded g hg).1 hr
  simp only [uniform_int_distribution._S_nd] at h
  split at h
  · rw [Option.map_eq_some'] at h
    obtain ⟨p, hp1, rfl⟩ := h
    exact S_nd_loop_lt range _ fuel _ _ p hr (generate_bounded g hg).2 hp hp1
  · cases h; exact hp

theorem urange_4000_6000 : (((6000 : ℤ) - 4000) % 2 ^ 64).toNat = 2000 := by decide

/-- The call `distr(eng)` of the program in terms of `_S_nd`. -/
theorem uniform_int_distribution_eq (fuel : ℕ) (g : mt19937) :
    uniform_int_distribution 4000 6000 fuel g =
      (uniform_int_distribution._S_nd 2001 fuel g).map
        (fun (ret : ℕ) => toInt32 (((ret : ℤ) + 4000) % 2 ^ 64)) := by
  simp only [uniform_int_distribution, urange_4000_6000]
  rw [if_pos (by norm_num)]

/-- Every value the draw of the program returns lies in the closed interval
from 4000 to 6000. -/
theorem uniform_int_distribution_bounds (fuel sd : ℕ) (d : ℤ)
    (h : uniform_int_distribution 4000 6000 fuel (mt19937.seed sd) = some d) :
    4000 ≤ d ∧ d ≤ 6000 := by
  rw [uniform_int_distribution_eq, Option.map_eq_some'] at h
  obtain ⟨ret, hret, rfl⟩ := h
  have hlt : ret < 2001 := S_nd_lt 2001 fuel _ ret (by norm_num) (seed_bounded sd) hret
  have h64 : (2 : ℤ) ^ 64 = 18446744073709551616 := by norm_num
  have h32 : (2 : ℤ) ^ 32 = 4294967296 := by norm_num
  have h31 : (2 : ℤ) ^ 31 = 2147483648 := by norm_num
  simp only [toInt32, h64, h32, h31]
  split <;> omega

theorem draw_seed_0 : uniform_int_distribution 4000 6000 0 (mt19937.seed 0) = some 5098 := by
  decide!

/-! ## Facts shared by the claims about the cycle loop -/

theorem toggled_phase_eq (p : TrafficLightPhase) :
    (if p = green then red else if p = red then green else p) = p.opposite := by
  cases p <;> rfl

/-- The idle branch of the loop body. -/
theorem cycleIteration_idle (fuel : ℕ) (inp : CycleInput) (s : TrafficLight × CycleLocals)
    (h : elapsedMs s.2.startTime inp.curTime < s.2.duration) :
    TrafficLight.cycleIteration fuel inp s = CycleStep.completed s := by
  unfold TrafficLight.cycleIteration
  rw [if_neg (not_le.mpr h)]

/-- The toggling branch of the loop body when the draw returns `d`. -/
theorem cycleIteration_toggle (fuel : ℕ) (inp : CycleInput) (s : TrafficLight × CycleLocals)
    (d : ℤ) (h : elapsedMs s.2.startTime inp.curTime ≥ s.2.duration)
    (hd : uniform_int_distribution 4000 6000 fuel (mt19937.seed inp.rd) = some d) :
    TrafficLight.cycleIteration fuel inp s =
      CycleStep.completed
        (⟨s.1._currentPhase.opposite,
            ⟨s.1.messageQueue._queue ++ [s.1._currentPhase.opposite]⟩⟩,
          ⟨(d : ℚ), inp.resetTime⟩) := by
  unfold TrafficLight.cycleIteration
  rw [if_pos h]
  simp only [hd, toggled_phase_eq, MessageQueue.send, push_back_eq_append]

/-- The toggling branch of the loop body while the draw has not returned. -/
theorem cycleIteration_drawing (fuel : ℕ) (inp : CycleInput) (s : TrafficLight × CycleLocals)
    (h : elapsedMs s.2.startTime inp.curTime ≥ s.2.duration)
    (hd : uniform_int_distribution 4000 6000 fuel (mt19937.seed inp.rd) = none) :
    TrafficLight.cycleIteration fuel inp s =
      CycleStep.drawing
        (⟨s.1._currentPhase.opposite, s.1.messageQueue⟩, ⟨s.2.duration, inp.resetTime⟩) := by
  unfold TrafficLight.cycleIteration
  rw [if_pos h]
  simp only [hd, toggled_phase_eq]

theorem alternation_succ (n : ℕ) :
    alternation (n + 1) = alternation n ++ [if n % 2 = 0 then green else red] := by
  simp [alternation, List.range_succ]

theorem alternation_length (n : ℕ) : (alternation n).length = n := by
  simp [alternation]

theorem cycleIteration_completed_inv (fuel : ℕ) (inp : CycleInput)
    (s s1 : TrafficLight × CycleLocals) (hs : CycleInv s)
    (h1 : TrafficLight.cycleIteration fuel inp s = CycleStep.completed s1) : CycleInv s1 := by
  by_cases h : elapsedMs s.2.startTime inp.curTime ≥ s.2.duration
  · cases hd : uniform_int_distribution 4000 6000 fuel (mt19937.seed inp.rd) with
    | none =>
      rw [cycleIteration_drawing fuel inp s h hd] at h1
      cases h1
    | some d =>
      rw [cycleIteration_toggle fuel inp s d h hd] at h1
      cases h1
      obtain ⟨n, hq, hp⟩ := hs
      refine ⟨n + 1, ?_, ?_⟩
      · simp only [hq, hp, alternation_succ]
        by_cases hn : n % 2 = 0 <;> simp [hn, TrafficLightPhase.opposite]
      · simp only [hp]
        by_cases hn : n % 2 = 0
        · have : (n + 1) % 2 ≠ 0 := by omega
          simp [hn, this, TrafficLightPhase.opposite]
        · have : (n + 1) % 2 = 0 := by omega
          simp [hn, this, TrafficLightPhase.opposite]
  · rw [cycleIteration_idle fuel inp s (not_le.mp h)] at h1
    cases h1
    exact hs

theorem cycleIteration_drawing_queue (fuel : ℕ) (inp : CycleInput)
    (s s1 : TrafficLight × CycleLocals)
    (h1 : TrafficLight.cycleIteration fuel inp s = CycleStep.drawing s1) :
    s1.1.messageQueue = s.1.messageQueue := by
  by_cases h : elapsedMs s.2.startTime inp.curTime ≥ s.2.duration
  · cases hd : uniform_int_distribution 4000 6000 fuel (mt19937.seed inp.rd) with
    | none =>
      rw [cycleIteration_drawing fuel inp s h hd] at h1
      cases h1
      rfl
    | some d =>
      rw [cycleIteration_toggle fuel inp s d h hd] at h1
      cases h1
  · rw [cycleIteration_idle fuel inp s (not_le.mp h)] at h1
    cases h1

theorem cycleLoop_published (fuel : ℕ) (inputs : List CycleInput)
    (s : TrafficLight × CycleLocals) (hs : CycleInv s) :
    ∃ n, (TrafficLight.cycleLoop fuel inputs s).state.1.messageQueue._queue = alternation n := by
  induction inputs generalizing s with
  | nil =>
    obtain ⟨n, hq, _⟩ := hs
    exact ⟨n, hq⟩
  | cons inp inputs ih =>
    cases h1 : TrafficLight.cycleIteration fuel inp s with
    | completed s1 =>
      simp only [TrafficLight.cycleLoop, h1]
      exact ih s1 (cycleIteration_completed_inv fuel inp s s1 hs h1)
    | drawing s1 =>
      simp only [TrafficLight.cycleLoop, h1, CycleStep.state]
      obtain ⟨n, hq, _⟩ := hs
      exact ⟨n, by rw [cycleIteration_drawing_queue fuel inp s s1 h1, hq]⟩

theorem cycleThroughPhases_published (fuel : ℕ) (t0 : ℤ) (inputs : List CycleInput) :
    ∃ n, (TrafficLight.cycleThroughPhases fuel t0 inputs
      TrafficLight.construct).state.1.messageQueue._queue = alternation n :=
  cycleLoop_published fuel inputs _ ⟨0, rfl, rfl⟩

theorem alternation_getElem? (n i : ℕ) (h : i + 1 < n) :
    (alternation n)[i + 1]? = ((alternation n)[i]?).map TrafficLightPhase.opposite := by
  have h1 : i < n := by omega
  simp only [alternation, List.getElem?_map, List.getElem?_range h, List.getElem?_range h1,
    Option.map_some']
  by_cases hi : i % 2 = 0
  · have : (i + 1) % 2 ≠ 0 := by omega
    simp [hi, this, TrafficLightPhase.opposite]
  · have : (i + 1) % 2 = 0 := by omega
    simp [hi, this, TrafficLightPhase.opposite]

theorem elapsedMs_seven_seconds : elapsedMs 0 7000000000 = 7000 := by
  decide!

/-- A run of `n` passes, seven seconds after each reset, in which every pass
toggles. -/
theorem cycleLoop_replicate (n : ℕ) (s : TrafficLight × CycleLocals)
    (h1 : s.2.startTime = 0) (h2 : s.2.duration ≤ 7000) :
    ∃ s1, TrafficLight.cycleLoop 0 (List.replicate n ⟨7000000000, 0, 0⟩) s
        = CycleStep.completed s1 ∧
      s1.1.messageQueue._queue.length = s.1.messageQueue._queue.length + n := by
  induction n generalizing s with
  | zero => exact ⟨s, rfl, rfl⟩
  | succ n ih =>
    have ht : elapsedMs s.2.startTime (7000000000 : ℤ) ≥ s.2.duration := by
      rw [h1, elapsedMs_seven_seconds]
      exact h2
    have hstep := cycleIteration_toggle 0 ⟨7000000000, 0, 0⟩ s 5098 ht draw_seed_0
    obtain ⟨s1, hs1, hlen⟩ := ih
      (⟨s.1._currentPhase.opposite,
          ⟨s.1.messageQueue._queue ++ [s.1._currentPhase.opposite]⟩⟩,
        ⟨((5098 : ℤ) : ℚ), 0⟩) rfl (by norm_num)
    refine ⟨s1, ?_, ?_⟩
    · simp only [List.replicate_succ, TrafficLight.cycleLoop, hstep]
      exact hs1
    · rw [hlen]
      simp
      omega

/-! ## Claims about the cycle loop -/

/-- C3. Strict alternation: for a traffic light built by the constructor and
driven by one cycle loop with no receiver, after any number of passes the
values passed to `send` are green, red, green, red, ...: the first is green and
each later one is the opposite of the one before it; and every number of
toggles occurs in some run. -/
theorem published_phases_alternate :
    (∀ (fuel : ℕ) (t0 : ℤ) (inputs : List CycleInput),
      (TrafficLight.cycleThroughPhases fuel t0 inputs
          TrafficLight.construct).state.1.messageQueue._queue
          = (List.range (TrafficLight.cycleThroughPhases fuel t0 inputs
              TrafficLight.construct).state.1.messageQueue._queue.length).map
              (fun i => if i % 2 = 0 then green else red) ∧
        ((TrafficLight.cycleThroughPhases fuel t0 inputs
            TrafficLight.construct).state.1.messageQueue._queue.head? = none ∨
          (TrafficLight.cycleThroughPhases fuel t0 inputs
            TrafficLight.construct).state.1.messageQueue._queue.head? = some green) ∧
        (∀ i, i + 1 < (TrafficLight.cycleThroughPhases fuel t0 inputs
              TrafficLight.construct).state.1.messageQueue._queue.length →
          (TrafficLight.cycleThroughPhases fuel t0 inputs
              TrafficLight.construct).state.1.messageQueue._queue[i + 1]?
            = ((TrafficLight.cycleThroughPhases fuel t0 inputs
                TrafficLight.construct).state.1.messageQueue._queue[i]?).map
                TrafficLightPhase.opposite)) ∧
      (∀ n : ℕ, ∃ (fuel : ℕ) (t0 : ℤ) (inputs : List CycleInput),
        (TrafficLight.cycleThroughPhases fuel t0 inputs
          TrafficLight.construct).state.1.messageQueue._queue.length = n) := by
  refine ⟨?_, fun n => ?_⟩
  · intro fuel t0 inputs
    obtain ⟨n, hq⟩ := cycleThroughPhases_published fuel t0 inputs
    rw [hq, alternation_length]
    refine ⟨rfl, ?_, fun i hi => alternation_getElem? n i hi⟩
    cases n with
    | zero => exact Or.inl rfl
    | succ m =>
      right
      simp [alternation, List.range_succ_eq_map]
  · obtain ⟨s1, hs1, hlen⟩ := cycleLoop_replicate n
      (TrafficLight.cycleEntry 0 TrafficLight.construct) rfl (by
        show (0 : ℚ) ≤ 7000
        norm_num)
    refine ⟨0, 0, List.replicate n ⟨7000000000, 0, 0⟩, ?_⟩
    unfold TrafficLight.cycleThroughPhases
    rw [hs1, CycleStep.state, hlen]
    simp [TrafficLight.cycleEntry, TrafficLight.construct]

/-- Witness for C3: two toggling passes publish green, then red. -/
theorem published_phases_alternate_witness :
    (TrafficLight.cycleThroughPhases 0 0 [⟨0, 0, 2000⟩, ⟨7000000000, 7000000000, 0⟩]
        TrafficLight.construct).state.1.messageQueue._queue = [green, red] ∧
      (TrafficLight.cycleThroughPhases 0 0 [⟨0, 0, 2000⟩, ⟨7000000000, 7000000000, 0⟩]
          TrafficLight.construct).state.1.messageQueue._queue[0 + 1]?
        = ((TrafficLight.cycleThroughPhases 0 0 [⟨0, 0, 2000⟩, ⟨7000000000, 7000000000, 0⟩]
            TrafficLight.construct).state.1.messageQueue._queue[0]?).map
            TrafficLightPhase.opposite := by
  have hrun : (TrafficLight.cycleThroughPhases 0 0
      [⟨0, 0, 2000⟩, ⟨7000000000, 7000000000, 0⟩]
      TrafficLight.construct).state.1.messageQueue._queue = [green, red] := by
    decide!
  exact ⟨hrun, (published_phases_alternate.1 0 0
    [⟨0, 0, 2000⟩, ⟨7000000000, 7000000000, 0⟩]).2.2 0 (by rw [hrun]; decide)⟩

/-- C4, as stated, fails: with `rd()` equal to 716357 the first call of the
generator gives 4294120003 and the distribution returns 6000, so a toggling
pass sets the target duration 6000, which is not below 6000. -/
theorem drawn_duration_reaches_6000 :
    (mt19937.seed 716357).generate.1 = 4294120003 ∧
      uniform_int_distribution 4000 6000 0 (mt19937.seed 716357) = some 6000 ∧
      elapsedMs (TrafficLight.cycleEntry 0 TrafficLight.construct).2.startTime 0
        ≥ (TrafficLight.cycleEntry 0 TrafficLight.construct).2.duration ∧
      TrafficLight.cycleIteration 0 ⟨0, 0, 716357⟩
          (TrafficLight.cycleEntry 0 TrafficLight.construct)
        = CycleStep.completed (⟨green, ⟨[green]⟩⟩, ⟨6000, 0⟩) ∧
      ¬ ((TrafficLight.cycleIteration 0 ⟨0, 0, 716357⟩
          (TrafficLight.cycleEntry 0 TrafficLight.construct)).state.2.duration < 6000) := by
  have h : TrafficLight.cycleIteration 0 ⟨0, 0, 716357⟩
      (TrafficLight.cycleEntry 0 TrafficLight.construct)
      = CycleStep.completed (⟨green, ⟨[green]⟩⟩, ⟨6000, 0⟩) := by
    decide!
  refine ⟨by decide!, by decide!, by decide!, h, ?_⟩
  rw [h]
  simp [CycleStep.state]

/-- C4, amended. Every target duration `d` that the cycle loop draws on a
toggling pass is an integer with `4000 ≤ d ≤ 6000`, the closed interval. -/
theorem drawn_duration_in_closed_interval (fuel : ℕ) (inp : CycleInput)
    (s s1 : TrafficLight × CycleLocals)
    (h : elapsedMs s.2.startTime inp.curTime ≥ s.2.duration)
    (h1 : TrafficLight.cycleIteration fuel inp s = CycleStep.completed s1) :
    4000 ≤ s1.2.duration ∧ s1.2.duration ≤ 6000 ∧
      ∃ d : ℤ, uniform_int_distribution 4000 6000 fuel (mt19937.seed inp.rd) = some d ∧
        s1.2.duration = (d : ℚ) := by
  cases hd : uniform_int_distribution 4000 6000 fuel (mt19937.seed inp.rd) with
  | none =>
    rw [cycleIteration_drawing fuel inp s h hd] at h1
    cases h1
  | some d =>
    rw [cycleIteration_toggle fuel inp s d h hd] at h1
    cases h1
    obtain ⟨hlo, hhi⟩ := uniform_int_distribution_bounds fuel inp.rd d hd
    refine ⟨?_, ?_, d, rfl, rfl⟩
    · show (4000 : ℚ) ≤ (d : ℚ)
      exact_mod_cast hlo
    · show (d : ℚ) ≤ 6000
      exact_mod_cast hhi

/-- Witness for the amended C4: the first pass of a fresh loop with `rd()`
equal to 12345 draws 5860. -/
theorem drawn_duration_in_closed_interval_witness :
    TrafficLight.cycleIteration 0 ⟨1000, 2000, 12345⟩
        (TrafficLight.cycleEntry 0 TrafficLight.construct)
        = CycleStep.completed (⟨green, ⟨[green]⟩⟩, ⟨5860, 2000⟩) ∧
      (4000 : ℚ) ≤ 5860 ∧ (5860 : ℚ) ≤ 6000 :=
  ⟨by decide!,
    (drawn_duration_in_closed_interval 0 ⟨1000, 2000, 12345⟩
      (TrafficLight.cycleEntry 0 TrafficLight.construct) (⟨green, ⟨[green]⟩⟩, ⟨5860, 2000⟩)
      (by decide!) (by decide!)).1,
    (drawn_duration_in_closed_interval 0 ⟨1000, 2000, 12345⟩
      (TrafficLight.cycleEntry 0 TrafficLight.construct) (⟨green, ⟨[green]⟩⟩, ⟨5860, 2000⟩)
      (by decide!) (by decide!)).2.1⟩

/-- C5, evaluated at the failing input. Entered at clock reading 0 the loop has
target duration 0, not a value from 4000 to 6000; its first pass, one
microsecond later at a computed elapsed time below 4000 ms, toggles red to
green, publishes green and only then draws 5141; a `waitForGreen` on that
buffer returns. -/
theorem first_toggle_before_4000ms :
    (TrafficLight.cycleEntry 0 TrafficLight.construct).2.duration = 0 ∧
      ¬ (4000 ≤ (TrafficLight.cycleEntry 0 TrafficLight.construct).2.duration) ∧
      elapsedMs 0 1000 < 4000 ∧
      TrafficLight.cycleThroughPhases 0 0 [⟨1000, 2000, 2000⟩] TrafficLight.construct
        = CycleStep.completed (⟨green, ⟨[green]⟩⟩, ⟨5141, 2000⟩) ∧
      (TrafficLight.waitForGreen [[]] ⟨green, ⟨[green]⟩⟩).status = WaitStatus.returned := by
  refine ⟨rfl, by decide!, by decide!, by decide!, by decide⟩

end TrafficSim
